import Mathlib

/-!
Verification model of the Outbox mail-queue repository.

The definitions below are a shallow embedding of the Python source:

* `src/outbox/models/message.py`   — `Message` dataclass, `create`,
  `update_status`, `to_list`/`cc_list`/`bcc_list`, `get_pending_batch`.
* `worker/queue_worker.py`         — `_process_batch` (send / backoff /
  dead-letter logic).
* `src/outbox/blueprints/api.py`   — `submit_message`, `get_message`,
  `retry_message`, `cancel_message`, `_message_to_dict`.
* `src/outbox/services/attachment_service.py` — `save_attachment`
  (content-addressed blob store with SHA-256 dedup).

Modelling conventions:

* Timestamps are rationals (ISO-8601 UTC strings compare
  lexicographically, which is chronologically; `timedelta` arithmetic on
  them is second arithmetic, and a Python `2 ** negative` produces an
  exact binary float, so `Rat` represents every reachable value exactly).
* Python ints are `Int` (they can go negative, e.g. `retries_remaining`).
* A stored recipients column is a string that either parses as a JSON
  array or does not; the embedding records that parse outcome in the
  `RecipField` inductive (`jsonArr` = the column holds the JSON encoding
  of that list, `legacy` = the column holds a string that is not valid
  JSON, as in the legacy single-address fallback).
* SHA-256 is an abstract hash parameter `h`; theorems that need
  collision-freedom take injectivity of `h` as a hypothesis.
* base64 decoding is an abstract possibly-failing function
  `b64 : String → Option String` (`none` = `binascii.Error` raised by
  `b64decode`).
-/

namespace Outbox

/-- The status column of a `message` row. -/
inductive Status where
  | queued
  | sending
  | sent
  | failed
  | dead
  | cancelled
deriving DecidableEq, Repr

/-- A stored recipients column, by JSON-parse outcome: `jsonArr l` is the
column holding `json.dumps l`; `legacy s` is the column holding a string
`s` that is not valid JSON (the legacy single-address form). -/
inductive RecipField where
  | jsonArr (l : List String)
  | legacy (s : String)
deriving DecidableEq, Repr

/-- One `message` row, mirroring the dataclass in
`src/outbox/models/message.py`. -/
structure Msg where
  id : Nat
  uuid : Nat
  status : Status
  deliveryType : String
  fromAddress : String
  toRecipients : RecipField
  ccRecipients : Option RecipField
  bccRecipients : Option RecipField
  subject : String
  body : String
  bodyType : String
  retriesRemaining : Int
  nextRetryAt : Option Rat
  lastError : Option String
  sourceApp : Option String
  sourceApiKeyId : Option Nat
  createdAt : Rat
  updatedAt : Rat
  sentAt : Option Rat
deriving DecidableEq, Repr

/-- `Message.to_list`: `json.loads` on success returns the array;
`JSONDecodeError` falls back to `[s] if s else []`. -/
def Msg.toList (m : Msg) : List String :=
  match m.toRecipients with
  | .jsonArr l => l
  | .legacy s => if s = "" then [] else [s]

/-- Shared decoding of an optional recipients column, as in
`Message.cc_list` / `Message.bcc_list`: a null or falsy (empty-string)
column yields `[]`, then JSON decoding with the legacy fallback. -/
def decodeOptRecips : Option RecipField → List String
  | none => []
  | some (.jsonArr l) => l
  | some (.legacy s) => if s = "" then [] else [s]

/-- `Message.cc_list`. -/
def Msg.ccList (m : Msg) : List String := decodeOptRecips m.ccRecipients

/-- `Message.bcc_list`. -/
def Msg.bccList (m : Msg) : List String := decodeOptRecips m.bccRecipients

/-- `cc_json = json.dumps(cc_recipients) if cc_recipients else None`
(`api.py` additionally passes `cc if cc else None`, which is absorbed by
the same falsiness test: `None` and `[]` are both falsy). -/
def storeOptRecips : Option (List String) → Option RecipField
  | none => none
  | some [] => none
  | some l => some (.jsonArr l)

/-- `Message.create` (`src/outbox/models/message.py`): new row with
status `queued`, `retries_remaining = max_retries`,
`created_at = updated_at = now`, no `next_retry_at`, no `last_error`,
no `sent_at`.  The fresh `id`/`uuid` and the clock are explicit
parameters of the model. -/
def createMsg (ident : Nat) (fromAddress : String) (toAddrs : List String)
    (subject body bodyType deliveryType : String)
    (cc bcc : Option (List String)) (sourceApp : Option String)
    (sourceApiKeyId : Option Nat) (maxRetries : Int) (now : Rat) : Msg :=
  { id := ident
    uuid := ident
    status := .queued
    deliveryType := deliveryType
    fromAddress := fromAddress
    toRecipients := .jsonArr toAddrs
    ccRecipients := storeOptRecips cc
    bccRecipients := storeOptRecips bcc
    subject := subject
    body := body
    bodyType := bodyType
    retriesRemaining := maxRetries
    nextRetryAt := none
    lastError := none
    sourceApp := sourceApp
    sourceApiKeyId := sourceApiKeyId
    createdAt := now
    updatedAt := now
    sentAt := none }

/-- `Message.update_status`: writes `status`, `last_error`,
`next_retry_at` exactly as passed (defaults `None`), `updated_at = now`,
`sent_at = now` iff the new status is `sent`, and `retries_remaining`
from the in-memory object (unchanged by this call itself). -/
def updateStatus (m : Msg) (status : Status) (lastError : Option String)
    (nextRetryAt : Option Rat) (now : Rat) : Msg :=
  { m with
    status := status
    lastError := lastError
    nextRetryAt := nextRetryAt
    updatedAt := now
    sentAt := if status = .sent then some now else m.sentAt }

/-- The `WHERE` clause of `Message.get_pending_batch`: status queued,
OR status failed with `next_retry_at` non-null and `<= now`. -/
def pendingEligible (m : Msg) (now : Rat) : Bool :=
  m.status = .queued ||
    (m.status = .failed &&
      match m.nextRetryAt with
      | some t => decide (t ≤ now)
      | none => false)

/-- Worker configuration (`queue_worker.run` reads these from the app
config). -/
structure Cfg where
  maxRetries : Int
  retryBase : Int
  retryMax : Int
deriving DecidableEq, Repr

/-- Python `2 ** e` for an integer `e`: an integer power when `e ≥ 0`,
an exact binary float (here: rational) when `e < 0`. -/
def pow2 (e : Int) : Rat :=
  if 0 ≤ e then ((2 ^ e.toNat : Int) : Rat) else 1 / ((2 ^ (-e).toNat : Int) : Rat)

/-- The backoff delay computed in `_process_batch`:
`delay = min(retry_base * (2 ** (max_retries - retries_remaining)), retry_max)`
with `retries_remaining` already decremented. -/
def backoffDelay (cfg : Cfg) (retriesAfter : Int) : Rat :=
  min ((cfg.retryBase : Rat) * pow2 (cfg.maxRetries - retriesAfter)) (cfg.retryMax : Rat)

/-- One observable mutation of a message row:
a worker delivery attempt (`ok` = SMTP success), an admin retry, or an
admin cancel. -/
inductive Op where
  | attempt (ok : Bool) (err : String) (now : Rat)
  | adminRetry (now : Rat)
  | adminCancel (now : Rat)

/-- The body of `_process_batch` for one message: mark `sending`, try to
send; on success mark `sent`; on failure decrement `retries_remaining`
and either schedule a retry (`failed`, `next_retry_at = now + delay`) or
dead-letter (`dead`).  The worker only reaches a message through
`get_pending_batch`, hence the `pendingEligible` guard. -/
def workerAttempt (cfg : Cfg) (ok : Bool) (err : String) (now : Rat)
    (m : Msg) : Msg :=
  if pendingEligible m now then
    let m1 := updateStatus m .sending none none now
    if ok then
      updateStatus m1 .sent none none now
    else
      let m2 := { m1 with retriesRemaining := m1.retriesRemaining - 1 }
      if m2.retriesRemaining > 0 then
        updateStatus m2 .failed (some err)
          (some (now + backoffDelay cfg m2.retriesRemaining)) now
      else
        updateStatus m2 .dead (some err) none now
  else m

/-- `retry_message` (`api.py`; `admin_queue.py` is identical): allowed
only from `failed`/`dead`; sets `retries_remaining =
QUEUE_MAX_RETRIES` then `update_status("queued")`.  Returns the row and
whether the operation succeeded (`false` = HTTP 400 InvalidState, row
untouched). -/
def adminRetry (cfg : Cfg) (now : Rat) (m : Msg) : Msg × Bool :=
  if m.status = .failed ∨ m.status = .dead then
    (updateStatus { m with retriesRemaining := cfg.maxRetries } .queued none none now,
      true)
  else (m, false)

/-- `cancel_message`: allowed only from `queued`. -/
def adminCancel (now : Rat) (m : Msg) : Msg × Bool :=
  if m.status = .queued then
    (updateStatus m .cancelled none none now, true)
  else (m, false)

/-- The effect of one `Op` on a row. -/
def applyOp (cfg : Cfg) (op : Op) (m : Msg) : Msg :=
  match op with
  | .attempt ok err now => workerAttempt cfg ok err now m
  | .adminRetry now => (adminRetry cfg now m).1
  | .adminCancel now => (adminCancel now m).1

/-- `ORDER BY created_at ASC` as a relation on rows. -/
def createdLE (a b : Msg) : Prop := a.createdAt ≤ b.createdAt

instance : DecidableRel createdLE := fun a b =>
  inferInstanceAs (Decidable (a.createdAt ≤ b.createdAt))

instance : IsTotal Msg createdLE := ⟨fun a b => le_total a.createdAt b.createdAt⟩

instance : IsTrans Msg createdLE := ⟨fun _ _ _ hab hbc => le_trans hab hbc⟩

/-- `Message.get_pending_batch`: the rows satisfying the `WHERE` clause,
`ORDER BY created_at ASC`, `LIMIT batch_size`.  The table is modelled as
the list of its rows. -/
def getPendingBatch (table : List Msg) (now : Rat) (batchSize : Nat) :
    List Msg :=
  (List.insertionSort createdLE
    (table.filter (fun m => pendingEligible m now))).take batchSize

/-! ### Blob store (`attachment_service.py`, `attachment.py`) -/

/-- A blob path `<blob_root>/<first-2-hex-chars-of-sha256>/<sha256>`,
kept structurally as the pair (root, hash) that determines it;
`renderPath` produces the literal string. -/
structure BlobPath where
  root : String
  hash : String
deriving DecidableEq, Repr

/-- The path string `str(blob_dir / sha256[:2] / sha256)`. -/
def renderPath (p : BlobPath) : String :=
  p.root ++ "/" ++ p.hash.take 2 ++ "/" ++ p.hash

/-- One `attachment` row (`src/outbox/models/attachment.py`). -/
structure AttRow where
  id : Nat
  messageId : Nat
  filename : String
  contentType : String
  sizeBytes : Nat
  sha256 : String
  diskPath : BlobPath
deriving DecidableEq, Repr

/-- On-disk blob tree: an association of paths to file contents. -/
abbrev BlobFS := List (BlobPath × String)

/-- `Path(p).exists()` / file lookup. -/
def fsGet (fs : BlobFS) (p : BlobPath) : Option String :=
  (List.find? (fun e => e.1 = p) fs).map Prod.snd

/-- `open(path, "wb").write(data)`: (over)write one file. -/
def fsWrite (fs : BlobFS) (p : BlobPath) (c : String) : BlobFS :=
  (p, c) :: List.filter (fun e => ¬ (e.1 = p)) fs

/-- State of the attachment subsystem: the `attachment` table plus the
blob tree. -/
structure BlobState where
  nextAttId : Nat
  attRows : List AttRow
  fs : BlobFS

/-- `Attachment.find_by_sha256` (`... WHERE sha256 = ? LIMIT 1`, first
row in insertion order). -/
def findBySha256 (rows : List AttRow) (sha : String) : Option AttRow :=
  rows.find? (fun r => r.sha256 = sha)

/-- Blob-store configuration: `BLOB_DIRECTORY` and
`BLOB_MAX_SIZE_MB * 1024 * 1024`. -/
structure BlobCfg where
  blobRoot : String
  maxBlobBytes : Nat
deriving DecidableEq, Repr

/-- `save_attachment` (`attachment_service.py`): reject oversize input
(`ValueError`, modelled as `none`); compute the hash; if a prior
attachment row with the same hash exists and its file is still on disk,
reuse its path without writing; otherwise write the blob at the
content-addressed path; finally insert an `attachment` row.  `h` is the
abstract SHA-256. -/
def saveAttachment (h : String → String) (cfg : BlobCfg) (st : BlobState)
    (messageId : Nat) (filename contentType : String) (data : String) :
    Option (BlobState × AttRow) :=
  if cfg.maxBlobBytes < data.length then none
  else
    let sha := h data
    let pick : BlobPath × BlobFS :=
      match findBySha256 st.attRows sha with
      | some existing =>
          if (fsGet st.fs existing.diskPath).isSome then
            (existing.diskPath, st.fs)
          else
            (⟨cfg.blobRoot, sha⟩, fsWrite st.fs ⟨cfg.blobRoot, sha⟩ data)
      | none =>
          (⟨cfg.blobRoot, sha⟩, fsWrite st.fs ⟨cfg.blobRoot, sha⟩ data)
    let row : AttRow :=
      { id := st.nextAttId
        messageId := messageId
        filename := filename
        contentType := contentType
        sizeBytes := data.length
        sha256 := sha
        diskPath := pick.1 }
    some ({ nextAttId := st.nextAttId + 1
            attRows := st.attRows ++ [row]
            fs := pick.2 }, row)

/-! ### HTTP API layer (`blueprints/api.py`) -/

/-- One entry of the `attachments` array of a submission payload;
`none` fields are absent keys. -/
structure AttEntry where
  filename : Option String
  contentType : Option String
  contentBase64 : Option String
deriving DecidableEq, Repr

/-- A submission payload as read by `submit_message` via `data.get`:
plain-`String` fields carry the `get` default when the key is absent
(`from_address`/`subject`/`body` default `""`, `body_type` default
`"plain"`, `delivery_type` default `"email"`). -/
structure Payload where
  fromAddress : String
  toField : Option (List String)
  subject : String
  body : String
  bodyType : String
  deliveryType : String
  cc : Option (List String)
  bcc : Option (List String)
  sourceApp : Option String
  attachments : List AttEntry
deriving DecidableEq, Repr

/-- Python `str.strip()` with no argument: remove leading and trailing
whitespace. -/
def pyStrip (s : String) : String :=
  ⟨((s.data.dropWhile Char.isWhitespace).reverse.dropWhile
      Char.isWhitespace).reverse⟩

/-- Outcome of `submit_message`: `created` = HTTP 201 with the uuid and
status of the new row; `badRequest` = HTTP 400 with an error string. -/
inductive ApiResult where
  | created (uuid : Nat) (status : Status)
  | badRequest (error : String)
deriving DecidableEq, Repr

/-- Whole persisted state: the `message` table (with uuid/id freshness
counter) and the attachment subsystem. -/
structure DBState where
  nextId : Nat
  messages : List Msg
  blob : BlobState

/-- The attachment loop of `submit_message`: entries whose
`content_base64` is missing or empty are skipped (`if content_b64:`);
a `binascii.Error` from `b64decode` yields 400; an oversize attachment
(`ValueError` from `save_attachment`) yields 400; both abort the loop
with the blob state written so far. -/
def attachOne (b64 : String → Option String) (h : String → String)
    (cfg : BlobCfg) (msgId : Nat) (e : AttEntry) (st : BlobState) :
    Except String BlobState :=
  let filename := e.filename.getD "attachment"
  let contentType := e.contentType.getD "application/octet-stream"
  let contentB64 := e.contentBase64.getD ""
  if contentB64 = "" then .ok st
  else
    match b64 contentB64 with
    | none => .error ("Invalid base64 in attachment " ++ filename)
    | some data =>
        match saveAttachment h cfg st msgId filename contentType data with
        | none => .error "Attachment too large"
        | some (st2, _) => .ok st2

/-- The loop over the entries: the first failing entry aborts with 400
(the blob state written so far is kept — neither `b64decode` nor the
size check in `save_attachment` writes anything before failing). -/
def attachLoop (b64 : String → Option String) (h : String → String)
    (cfg : BlobCfg) (msgId : Nat) :
    List AttEntry → BlobState → BlobState × Option String
  | [], st => (st, none)
  | e :: rest, st =>
      match attachOne b64 h cfg msgId e st with
      | .error msg => (st, some msg)
      | .ok st2 => attachLoop b64 h cfg msgId rest st2

/-- `submit_message` (`POST /api/v1/messages`): field extraction with
defaults, the three payload validations (each returning 400 with no
write), then `Message.create` — committed in its own transaction —
followed by the attachment loop (whose failures return 400 but do not
undo the committed message row), then 201.  `Message.create` is called
without `max_retries`, so the Python default `5` applies. -/
def submit (b64 : String → Option String) (h : String → String)
    (cfg : BlobCfg) (apiKeyId : Nat) (now : Rat) (st : DBState)
    (p : Payload) : DBState × ApiResult :=
  let fromAddress := pyStrip p.fromAddress
  if fromAddress = "" then
    (st, .badRequest "from_address is required")
  else
    match p.toField with
    | none => (st, .badRequest "to must be a non-empty list of email addresses")
    | some toAddrs =>
        if toAddrs = [] then
          (st, .badRequest "to must be a non-empty list of email addresses")
        else if p.bodyType = "plain" ∨ p.bodyType = "html" ∨ p.bodyType = "markdown" then
          let msg := createMsg st.nextId fromAddress toAddrs p.subject p.body
            p.bodyType p.deliveryType p.cc p.bcc p.sourceApp (some apiKeyId)
            5 now
          let st1 : DBState :=
            { st with nextId := st.nextId + 1, messages := st.messages ++ [msg] }
          match attachLoop b64 h cfg msg.id p.attachments st1.blob with
          | (bst, some err) => ({ st1 with blob := bst }, .badRequest err)
          | (bst, none) => ({ st1 with blob := bst }, .created msg.uuid msg.status)
        else
          (st, .badRequest "body_type must be plain, html, or markdown")

/-- The message projection returned by `_message_to_dict`. -/
structure Projection where
  uuid : Nat
  status : Status
  deliveryType : String
  fromAddress : String
  toAddrs : List String
  cc : List String
  bcc : List String
  subject : String
  bodyType : String
  retriesRemaining : Int
  lastError : Option String
  sourceApp : Option String
  createdAt : Rat
  updatedAt : Rat
  sentAt : Option Rat
deriving DecidableEq, Repr

/-- `_message_to_dict`. -/
def msgToDict (m : Msg) : Projection :=
  { uuid := m.uuid
    status := m.status
    deliveryType := m.deliveryType
    fromAddress := m.fromAddress
    toAddrs := m.toList
    cc := m.ccList
    bcc := m.bccList
    subject := m.subject
    bodyType := m.bodyType
    retriesRemaining := m.retriesRemaining
    lastError := m.lastError
    sourceApp := m.sourceApp
    createdAt := m.createdAt
    updatedAt := m.updatedAt
    sentAt := m.sentAt }

/-- `Message.get_by_uuid` (`SELECT ... WHERE uuid = ?`). -/
def getByUuid (st : DBState) (u : Nat) : Option Msg :=
  st.messages.find? (fun m => m.uuid = u)

/-- `get_message` (`GET /api/v1/messages/{uuid}`): the projection, or
`none` for HTTP 404. -/
def getMessage (st : DBState) (u : Nat) : Option Projection :=
  (getByUuid st u).map msgToDict

/-- An attachments entry is processed only when its `content_base64` key
is present and non-empty (`if content_b64:`). -/
def hasContent (e : AttEntry) : Bool := ¬ (e.contentBase64.getD "" = "")

/-! ### Theorems -/

/-- A concrete message used to instantiate hypotheses of theorems. -/
def sampleMsg : Msg :=
  createMsg 0 "a@x" ["b@y"] "hi" "hello" "plain" "email" none none none
    none 5 0

/-- C8: a recipients column holding a legacy plain string that is not
valid JSON is decoded by `to_list` / `cc_list` / `bcc_list` as a
one-element list containing that string, and as the empty list when the
stored string is empty; a null optional column also decodes to `[]`. -/
theorem legacy_recipient_fallback (s : String) (m me : Msg)
    (hs : s ≠ "")
    (hto : m.toRecipients = .legacy s)
    (hcc : m.ccRecipients = some (.legacy s))
    (hbcc : m.bccRecipients = some (.legacy s))
    (hto0 : me.toRecipients = .legacy "")
    (hcc0 : me.ccRecipients = some (.legacy ""))
    (hbcc0 : me.bccRecipients = some (.legacy "")) :
    m.toList = [s] ∧ m.ccList = [s] ∧ m.bccList = [s] ∧
    me.toList = [] ∧ me.ccList = [] ∧ me.bccList = [] := by
  refine ⟨?_, ?_, ?_, ?_, ?_, ?_⟩ <;>
    simp [Msg.toList, Msg.ccList, Msg.bccList, decodeOptRecips, hto, hcc,
      hbcc, hto0, hcc0, hbcc0, hs]

theorem legacy_recipient_fallback_witness :
    ({ sampleMsg with
        toRecipients := .legacy "x@y"
        ccRecipients := some (.legacy "x@y")
        bccRecipients := some (.legacy "x@y") } : Msg).toList = ["x@y"] ∧
    ({ sampleMsg with
        toRecipients := .legacy "x@y"
        ccRecipients := some (.legacy "x@y")
        bccRecipients := some (.legacy "x@y") } : Msg).ccList = ["x@y"] ∧
    ({ sampleMsg with
        toRecipients := .legacy "x@y"
        ccRecipients := some (.legacy "x@y")
        bccRecipients := some (.legacy "x@y") } : Msg).bccList = ["x@y"] ∧
    ({ sampleMsg with
        toRecipients := .legacy ""
        ccRecipients := some (.legacy "")
        bccRecipients := some (.legacy "") } : Msg).toList = [] ∧
    ({ sampleMsg with
        toRecipients := .legacy ""
        ccRecipients := some (.legacy "")
        bccRecipients := some (.legacy "") } : Msg).ccList = [] ∧
    ({ sampleMsg with
        toRecipients := .legacy ""
        ccRecipients := some (.legacy "")
        bccRecipients := some (.legacy "") } : Msg).bccList = [] :=
  legacy_recipient_fallback "x@y" _ _ (by decide) rfl rfl rfl rfl rfl rfl

/-- C9: `update_status` overwrites `last_error` and `next_retry_at` with
exactly the arguments passed (null when omitted) and rewrites
`retries_remaining` from the in-memory object; consequently when the
worker sends a previously failed message (marking it `sending` then
`sent`), its stored `last_error` and `next_retry_at` end up null. -/
theorem update_status_overwrites_error_fields (m : Msg) (st : Status)
    (le : Option String) (nra : Option Rat) (now : Rat) :
    (updateStatus m st le nra now).lastError = le ∧
    (updateStatus m st le nra now).nextRetryAt = nra ∧
    (updateStatus m st le nra now).retriesRemaining = m.retriesRemaining ∧
    (∀ cfg err, m.status = .failed → pendingEligible m now = true →
      (workerAttempt cfg true err now m).status = .sent ∧
      (workerAttempt cfg true err now m).lastError = none ∧
      (workerAttempt cfg true err now m).nextRetryAt = none) := by
  refine ⟨rfl, rfl, rfl, ?_⟩
  intro cfg err _ helig
  simp [workerAttempt, helig, updateStatus]

theorem update_status_overwrites_error_fields_witness :
    (updateStatus sampleMsg .queued none none 7).lastError = none ∧
    (updateStatus sampleMsg .queued none none 7).nextRetryAt = none ∧
    (updateStatus sampleMsg .queued none none 7).retriesRemaining
      = sampleMsg.retriesRemaining ∧
    (∀ cfg err, sampleMsg.status = .failed →
      pendingEligible sampleMsg 7 = true →
      (workerAttempt cfg true err 7 sampleMsg).status = .sent ∧
      (workerAttempt cfg true err 7 sampleMsg).lastError = none ∧
      (workerAttempt cfg true err 7 sampleMsg).nextRetryAt = none) :=
  update_status_overwrites_error_fields sampleMsg .queued none none 7

/-- C6: the admin retry operation succeeds exactly when the current
status is `failed` or `dead`; on success it sets status `queued`,
`retries_remaining = QUEUE_MAX_RETRIES` and clears `next_retry_at`; on
any other status it reports InvalidState and leaves the row unchanged. -/
theorem admin_retry_spec (cfg : Cfg) (now : Rat) (m : Msg) :
    ((adminRetry cfg now m).2 = true ↔
      (m.status = .failed ∨ m.status = .dead)) ∧
    ((m.status = .failed ∨ m.status = .dead) →
      (adminRetry cfg now m).1.status = .queued ∧
      (adminRetry cfg now m).1.retriesRemaining = cfg.maxRetries ∧
      (adminRetry cfg now m).1.nextRetryAt = none) ∧
    (¬ (m.status = .failed ∨ m.status = .dead) →
      (adminRetry cfg now m).1 = m) := by
  by_cases h : m.status = .failed ∨ m.status = .dead <;>
    simp [adminRetry, h, updateStatus]

theorem admin_retry_spec_witness :
    ((adminRetry ⟨5, 120, 3600⟩ 9 { sampleMsg with status := .dead }).2 = true ↔
      (({ sampleMsg with status := .dead } : Msg).status = .failed ∨
        ({ sampleMsg with status := .dead } : Msg).status = .dead)) ∧
    ((({ sampleMsg with status := .dead } : Msg).status = .failed ∨
        ({ sampleMsg with status := .dead } : Msg).status = .dead) →
      (adminRetry ⟨5, 120, 3600⟩ 9 { sampleMsg with status := .dead }).1.status = .queued ∧
      (adminRetry ⟨5, 120, 3600⟩ 9 { sampleMsg with status := .dead }).1.retriesRemaining = (5 : Int) ∧
      (adminRetry ⟨5, 120, 3600⟩ 9 { sampleMsg with status := .dead }).1.nextRetryAt = none) ∧
    (¬ (({ sampleMsg with status := .dead } : Msg).status = .failed ∨
        ({ sampleMsg with status := .dead } : Msg).status = .dead) →
      (adminRetry ⟨5, 120, 3600⟩ 9 { sampleMsg with status := .dead }).1
        = { sampleMsg with status := .dead }) :=
  admin_retry_spec ⟨5, 120, 3600⟩ 9 { sampleMsg with status := .dead }

/-- Attachment entries without usable content change nothing in the
loop: the loop on any entry list equals the loop on the list with those
entries removed. -/
theorem attachLoop_filter (b64 : String → Option String)
    (h : String → String) (cfg : BlobCfg) (msgId : Nat)
    (entries : List AttEntry) (st : BlobState) :
    attachLoop b64 h cfg msgId entries st
      = attachLoop b64 h cfg msgId (entries.filter hasContent) st := by
  induction entries generalizing st with
  | nil => rfl
  | cons e rest ih =>
      by_cases he : e.contentBase64.getD "" = ""
      · have hone : attachOne b64 h cfg msgId e st = .ok st := by
          simp [attachOne, he]
        have hf : hasContent e = false := by
          simp [hasContent, he]
        rw [List.filter_cons_of_neg (by simp [hf])]
        rw [show attachLoop b64 h cfg msgId (e :: rest) st
            = attachLoop b64 h cfg msgId rest st by
          simp [attachLoop, hone]]
        exact ih st
      · have hf : hasContent e = true := by
          simp [hasContent, he]
        rw [List.filter_cons_of_pos (by simp [hf])]
        show attachLoop b64 h cfg msgId (e :: rest) st
          = attachLoop b64 h cfg msgId (e :: rest.filter hasContent) st
        simp only [attachLoop]
        cases hone : attachOne b64 h cfg msgId e st with
        | error msg => rfl
        | ok st2 => exact ih st2

/-- C10: a submitted attachments entry whose `content_base64` key is
missing or empty is silently ignored — submitting a payload is
indistinguishable (same resulting database state, same HTTP response)
from submitting the payload with those entries deleted, so no attachment
row or blob is created for them and no error arises from them. -/
theorem empty_content_attachments_ignored (b64 : String → Option String)
    (h : String → String) (cfg : BlobCfg) (apiKeyId : Nat) (now : Rat)
    (st : DBState) (p : Payload) :
    submit b64 h cfg apiKeyId now st p
      = submit b64 h cfg apiKeyId now st
          { p with attachments := p.attachments.filter hasContent } := by
  unfold submit
  simp only
  split
  · rfl
  · split
    · rfl
    · split
      · rfl
      · split
        · rw [attachLoop_filter]
        · rfl

/-- C4: `get_pending_batch` returns at most `batch_size` rows, ordered
by `created_at` ascending; every returned row is eligible, eligibility
is exactly `status = queued ∨ (status = failed ∧ next_retry_at set ∧
next_retry_at ≤ now)`; rows in `sending`/`sent`/`dead`/`cancelled` are
never returned; and with a large enough batch size every eligible row of
the table is returned. -/
theorem get_pending_batch_spec (table : List Msg) (now : Rat) (n : Nat) :
    (getPendingBatch table now n).length ≤ n ∧
    List.Sorted createdLE (getPendingBatch table now n) ∧
    (∀ m, m ∈ getPendingBatch table now n → pendingEligible m now = true) ∧
    (∀ m, pendingEligible m now = true ↔
      (m.status = .queued ∨ (m.status = .failed ∧
        ∃ t, m.nextRetryAt = some t ∧ t ≤ now))) ∧
    (∀ m, m ∈ getPendingBatch table now n →
      m.status ≠ .sending ∧ m.status ≠ .sent ∧ m.status ≠ .dead ∧
        m.status ≠ .cancelled) ∧
    (∀ m, m ∈ table →
      (pendingEligible m now = true ↔
        m ∈ getPendingBatch table now table.length)) := by
  have hchar : ∀ m : Msg, pendingEligible m now = true ↔
      (m.status = .queued ∨ (m.status = .failed ∧
        ∃ t, m.nextRetryAt = some t ∧ t ≤ now)) := by
    intro m
    cases h : m.nextRetryAt <;> simp [pendingEligible, h]
  have hmem : ∀ m, m ∈ getPendingBatch table now n →
      pendingEligible m now = true := by
    intro m hm
    unfold getPendingBatch at hm
    have h1 := List.mem_of_mem_take hm
    rw [List.mem_insertionSort] at h1
    exact (List.mem_filter.mp h1).2
  refine ⟨?_, ?_, hmem, hchar, ?_, ?_⟩
  · simp [getPendingBatch, List.length_take]
  · exact (List.sorted_insertionSort createdLE _).sublist
      (List.take_sublist _ _)
  · intro m hm
    rcases (hchar m).mp (hmem m hm) with h | h
    · exact ⟨by simp [h], by simp [h], by simp [h], by simp [h]⟩
    · exact ⟨by simp [h.1], by simp [h.1], by simp [h.1], by simp [h.1]⟩
  · intro m hmt
    have hlen : (List.insertionSort createdLE
        (table.filter (fun x => pendingEligible x now))).length
          ≤ table.length := by
      rw [(List.perm_insertionSort createdLE _).length_eq]
      exact List.length_filter_le _ _
    constructor
    · intro he
      unfold getPendingBatch
      rw [List.take_of_length_le hlen, List.mem_insertionSort,
        List.mem_filter]
      exact ⟨hmt, he⟩
    · intro hm
      unfold getPendingBatch at hm
      have h1 := List.mem_of_mem_take hm
      rw [List.mem_insertionSort] at h1
      exact (List.mem_filter.mp h1).2

theorem get_pending_batch_spec_witness :
    (getPendingBatch [sampleMsg] 0 1).length ≤ 1 ∧
    sampleMsg ∈ getPendingBatch [sampleMsg] 0 1 :=
  ⟨(get_pending_batch_spec [sampleMsg] 0 1).1,
    ((get_pending_batch_spec [sampleMsg] 0 1).2.2.2.2.2 sampleMsg
      (by simp)).mp (by decide)⟩

/-! ### Blob dedup (C7) -/

/-- Number of blob files holding exactly the content `c`. -/
def fsCountContent (fs : BlobFS) (c : String) : Nat :=
  (List.filter (fun e => e.2 = c) fs).length

/-- Well-formedness of the attachment subsystem, maintained by
`save_attachment` because it is the only writer: every `attachment`
row was created for some content `c` and carries its digest and its
content-addressed path; every blob file sits at the content-addressed
path of its own content; paths are unique on disk. -/
def BlobWF (h : String → String) (root : String) (st : BlobState) : Prop :=
  (∀ r ∈ st.attRows, ∃ c, r.sha256 = h c ∧ r.diskPath = BlobPath.mk root (h c)) ∧
  (∀ e ∈ st.fs, e.1 = BlobPath.mk root (h e.2)) ∧
  (st.fs.map Prod.fst).Nodup

lemma nodup_all_eq_singleton {α : Type _} (l : List α) (e : α)
    (hnd : l.Nodup) (hall : ∀ x ∈ l, x = e) (he : e ∈ l) : l = [e] := by
  cases l with
  | nil => cases he
  | cons x xs =>
      have hx : x = e := hall x (List.mem_cons_self _ _)
      subst hx
      rcases List.nodup_cons.mp hnd with ⟨hxn, _⟩
      cases xs with
      | nil => rfl
      | cons y ys =>
          exact absurd (by
            rw [hall y (by simp)]
            exact List.mem_cons_self _ _) hxn

lemma fsGet_mem {fs : BlobFS} {p : BlobPath} {v : String}
    (hg : fsGet fs p = some v) : ∃ e ∈ fs, e.1 = p ∧ e.2 = v := by
  unfold fsGet at hg
  cases hf : List.find? (fun e => e.1 = p) fs with
  | none => rw [hf] at hg; cases hg
  | some e0 =>
      rw [hf] at hg
      refine ⟨e0, List.mem_of_find?_eq_some hf, ?_, ?_⟩
      · have := List.find?_some hf
        exact of_decide_eq_true this
      · simpa using hg

lemma fsWrite_get (fs : BlobFS) (p : BlobPath) (c : String) :
    fsGet (fsWrite fs p c) p = some c := by
  simp [fsGet, fsWrite, List.find?]

lemma fsWrite_wf {h : String → String} {root : String} {fs : BlobFS}
    (hwf : ∀ e ∈ fs, e.1 = BlobPath.mk root (h e.2)) (data : String) :
    ∀ e ∈ fsWrite fs (BlobPath.mk root (h data)) data,
      e.1 = BlobPath.mk root (h e.2) := by
  intro e he
  unfold fsWrite at he
  rcases List.mem_cons.mp he with h1 | h1
  · subst h1; rfl
  · exact hwf e (List.mem_of_mem_filter h1)

lemma fsWrite_nodup {fs : BlobFS} (p : BlobPath) (c : String)
    (hnd : (fs.map Prod.fst).Nodup) :
    ((fsWrite fs p c).map Prod.fst).Nodup := by
  unfold fsWrite
  rw [List.map_cons, List.nodup_cons]
  constructor
  · intro hmem
    rcases List.mem_map.mp hmem with ⟨e, he, hfst⟩
    have := List.of_mem_filter he
    simp only [decide_not] at this
    exact absurd hfst (by simpa using this)
  · exact hnd.sublist ((List.filter_sublist fs).map Prod.fst)

lemma fsWrite_count {h : String → String} {root : String} {fs : BlobFS}
    (hwf : ∀ e ∈ fs, e.1 = BlobPath.mk root (h e.2)) (data : String) :
    fsCountContent (fsWrite fs (BlobPath.mk root (h data)) data) data = 1 := by
  unfold fsCountContent fsWrite
  rw [List.filter_cons_of_pos (by simp)]
  have hnil : List.filter (fun e => decide (e.2 = data))
      (List.filter (fun e => !decide (e.1 = BlobPath.mk root (h data))) fs)
      = [] := by
    rw [List.filter_eq_nil_iff]
    intro e he hcd
    have h2 : e.2 = data := of_decide_eq_true hcd
    have h1 := hwf e (List.mem_of_mem_filter he)
    have := List.of_mem_filter he
    rw [h2] at h1
    simp [h1] at this
  simp only [decide_not]
  rw [hnil]
  rfl

lemma count_one_of_mem {h : String → String} {root : String} {fs : BlobFS}
    (hwf : ∀ e ∈ fs, e.1 = BlobPath.mk root (h e.2))
    (hnd : (fs.map Prod.fst).Nodup) {data : String}
    (hmem : (BlobPath.mk root (h data), data) ∈ fs) :
    fsCountContent fs data = 1 := by
  unfold fsCountContent
  have hflt := nodup_all_eq_singleton
    (List.filter (fun e => decide (e.2 = data)) fs)
    (BlobPath.mk root (h data), data)
    ((hnd.of_map _).filter _)
    (by
      intro x hx
      have hxfs := List.mem_of_mem_filter hx
      have hx2 : x.2 = data := of_decide_eq_true (List.mem_filter.mp hx).2
      have hx1 := hwf x hxfs
      rw [hx2] at hx1
      exact Prod.ext hx1 hx2)
    (List.mem_filter.mpr ⟨hmem, by simp⟩)
  rw [hflt]
  rfl

/-- One `save_attachment` call on a well-formed state succeeds (when the
data fits), yields a row carrying `h data` and the content-addressed
path, preserves well-formedness, leaves the blob readable at that path,
and leaves exactly one blob file holding that content. -/
lemma save_spec (h : String → String) (cfg : BlobCfg) (st : BlobState)
    (mid : Nat) (f ct data : String)
    (hinj : Function.Injective h) (hwf : BlobWF h cfg.blobRoot st)
    (hsize : data.length ≤ cfg.maxBlobBytes) :
    ∃ st1 a1,
      saveAttachment h cfg st mid f ct data = some (st1, a1) ∧
      a1.sha256 = h data ∧
      a1.diskPath = BlobPath.mk cfg.blobRoot (h data) ∧
      BlobWF h cfg.blobRoot st1 ∧
      fsGet st1.fs (BlobPath.mk cfg.blobRoot (h data)) = some data ∧
      fsCountContent st1.fs data = 1 ∧
      st1.attRows = st.attRows ++ [a1] := by
  obtain ⟨hwr, hwfs, hnd⟩ := hwf
  unfold saveAttachment
  rw [if_neg (not_lt.mpr hsize)]
  cases hfind : findBySha256 st.attRows (h data) with
  | none =>
      simp only [hfind]
      refine ⟨_, _, rfl, rfl, rfl, ⟨?_, ?_, ?_⟩, ?_, ?_, rfl⟩
      · intro r hr
        rcases List.mem_append.mp hr with hr | hr
        · exact hwr r hr
        · rcases List.mem_singleton.mp hr with rfl
          exact ⟨data, rfl, rfl⟩
      · exact fsWrite_wf hwfs data
      · exact fsWrite_nodup _ _ hnd
      · exact fsWrite_get _ _ _
      · exact fsWrite_count hwfs data
  | some r =>
      have hfind2 := hfind
      unfold findBySha256 at hfind2
      have hrmem : r ∈ st.attRows := List.mem_of_find?_eq_some hfind2
      have hrs : r.sha256 = h data := by
        simpa using List.find?_some hfind2
      obtain ⟨c, hc1, hc2⟩ := hwr r hrmem
      have hcd : c = data := hinj (by rw [← hc1, hrs])
      rw [hcd] at hc1 hc2
      simp only [hfind]
      cases hv : fsGet st.fs r.diskPath with
      | some v =>
          have hvd : v = data := by
            obtain ⟨e, hefs, he1, he2⟩ := fsGet_mem hv
            have hwe := hwfs e hefs
            rw [hwe] at he1
            rw [hc2] at he1
            have h2 : h e.2 = h data := by
              have := congrArg BlobPath.hash he1
              simpa using this
            rw [← he2]
            exact hinj h2
          rw [hvd] at hv
          have hvc : fsGet st.fs (BlobPath.mk cfg.blobRoot (h data))
              = some data := by
            rw [← hc2]; exact hv
          simp only [hv, Option.isSome_some, if_true]
          refine ⟨_, _, rfl, rfl, hc2, ⟨?_, hwfs, hnd⟩, hvc, ?_, rfl⟩
          · intro r2 hr2
            rcases List.mem_append.mp hr2 with hr2 | hr2
            · exact hwr r2 hr2
            · rcases List.mem_singleton.mp hr2 with rfl
              exact ⟨data, rfl, hc2⟩
          · refine count_one_of_mem hwfs hnd ?_
            obtain ⟨e, hefs, he1, he2⟩ := fsGet_mem hvc
            have he : e = (BlobPath.mk cfg.blobRoot (h data), data) :=
              Prod.ext he1 he2
            rw [← he]
            exact hefs
      | none =>
          simp only [hv, Option.isSome_none, Bool.false_eq_true, if_false]
          refine ⟨_, _, rfl, rfl, rfl, ⟨?_, ?_, ?_⟩, ?_, ?_, rfl⟩
          · intro r2 hr2
            rcases List.mem_append.mp hr2 with hr2 | hr2
            · exact hwr r2 hr2
            · rcases List.mem_singleton.mp hr2 with rfl
              exact ⟨data, rfl, rfl⟩
          · exact fsWrite_wf hwfs data
          · exact fsWrite_nodup _ _ hnd
          · exact fsWrite_get _ _ _
          · exact fsWrite_count hwfs data

/-- C7: two saves of byte-identical content (for any two messages, any
filenames) produce rows with the same `sha256` and the same `disk_path`
`<blob_root>/<first-2-hex-chars>/<sha256>`; after both saves exactly one
blob file holds that content, and the second save writes nothing to
disk. -/
theorem blob_dedup (h : String → String) (cfg : BlobCfg) (st : BlobState)
    (mid1 mid2 : Nat) (f1 ct1 f2 ct2 data : String)
    (hinj : Function.Injective h)
    (hwf : BlobWF h cfg.blobRoot st)
    (hsize : data.length ≤ cfg.maxBlobBytes) :
    ∃ st1 a1 st2 a2,
      saveAttachment h cfg st mid1 f1 ct1 data = some (st1, a1) ∧
      saveAttachment h cfg st1 mid2 f2 ct2 data = some (st2, a2) ∧
      a1.sha256 = h data ∧ a2.sha256 = h data ∧
      a1.diskPath = a2.diskPath ∧
      renderPath a1.diskPath
        = cfg.blobRoot ++ "/" ++ (h data).take 2 ++ "/" ++ h data ∧
      st2.fs = st1.fs ∧
      fsCountContent st2.fs data = 1 := by
  obtain ⟨st1, a1, hsave1, ha1sha, ha1path, hwf1, hget1, hcount1, hrows1⟩ :=
    save_spec h cfg st mid1 f1 ct1 data hinj hwf hsize
  have hex : ∃ r, findBySha256 st1.attRows (h data) = some r := by
    have hs : (List.find? (fun r => decide (r.sha256 = h data))
        st1.attRows).isSome = true := by
      rw [List.find?_isSome]
      refine ⟨a1, ?_, by simp [ha1sha]⟩
      rw [hrows1]
      exact List.mem_append_right _ (List.mem_singleton.mpr rfl)
    unfold findBySha256
    exact Option.isSome_iff_exists.mp hs
  obtain ⟨r, hfind⟩ := hex
  have hfind2 := hfind
  unfold findBySha256 at hfind2
  have hrmem : r ∈ st1.attRows := List.mem_of_find?_eq_some hfind2
  have hrs : r.sha256 = h data := by simpa using List.find?_some hfind2
  obtain ⟨c, hc1, hc2⟩ := hwf1.1 r hrmem
  have hcd : c = data := hinj (by rw [← hc1, hrs])
  rw [hcd] at hc2
  have hvr : fsGet st1.fs r.diskPath = some data := by
    rw [hc2]; exact hget1
  have hsave2 : saveAttachment h cfg st1 mid2 f2 ct2 data
      = some ({ nextAttId := st1.nextAttId + 1
                attRows := st1.attRows ++
                  [{ id := st1.nextAttId
                     messageId := mid2
                     filename := f2
                     contentType := ct2
                     sizeBytes := data.length
                     sha256 := h data
                     diskPath := r.diskPath }]
                fs := st1.fs },
              { id := st1.nextAttId
                messageId := mid2
                filename := f2
                contentType := ct2
                sizeBytes := data.length
                sha256 := h data
                diskPath := r.diskPath }) := by
    unfold saveAttachment
    rw [if_neg (not_lt.mpr hsize)]
    simp only [hfind, hvr, Option.isSome_some, if_true]
  refine ⟨st1, a1, _, _, hsave1, hsave2, ha1sha, rfl, ?_, ?_, rfl, hcount1⟩
  · rw [ha1path, hc2]
  · rw [ha1path]
    rfl

theorem blob_dedup_witness :
    ∃ st1 a1 st2 a2,
      saveAttachment id ⟨"r", 16⟩ ⟨0, [], []⟩ 1 "a.txt" "text/plain" "HELLO"
        = some (st1, a1) ∧
      saveAttachment id ⟨"r", 16⟩ st1 2 "b.txt" "text/plain" "HELLO"
        = some (st2, a2) ∧
      a1.sha256 = id "HELLO" ∧ a2.sha256 = id "HELLO" ∧
      a1.diskPath = a2.diskPath ∧
      renderPath a1.diskPath
        = "r" ++ "/" ++ (id "HELLO" : String).take 2 ++ "/" ++ id "HELLO" ∧
      st2.fs = st1.fs ∧
      fsCountContent st2.fs "HELLO" = 1 :=
  blob_dedup id ⟨"r", 16⟩ ⟨0, [], []⟩ 1 2 "a.txt" "text/plain" "b.txt"
    "text/plain" "HELLO" (fun _ _ hh => hh)
    ⟨by simp [BlobWF], by simp [BlobWF], by simp⟩ (by decide)

/-! ### Dead-letter invariant (C3) -/

lemma pendingEligible_status {m : Msg} {now : Rat}
    (h : pendingEligible m now = true) :
    m.status = .queued ∨ m.status = .failed := by
  cases hn : m.nextRetryAt <;> simp [pendingEligible, hn] at h
  · exact Or.inl h
  · rcases h with h | h
    · exact Or.inl h
    · exact Or.inr h.1

/-- The inductive invariant behind invariant 4 of the spec: a dead row
has `retries_remaining = 0` and an error recorded, and a live
(`queued`/`failed`) row still has at least one retry in its budget. -/
def RetryInv (m : Msg) : Prop :=
  (m.status = .dead → m.retriesRemaining = 0 ∧ m.lastError.isSome = true) ∧
  ((m.status = .queued ∨ m.status = .failed) → 1 ≤ m.retriesRemaining)

/-- C3 (amended): provided the configured `max_retries` is at least 1 —
both at message creation and in the worker/admin configuration — every
reachable message state satisfies: `status = dead` implies
`retries_remaining = 0` and `last_error` set.  The invariant holds at
creation, is preserved by every operation (worker attempt, admin retry,
admin cancel), hence holds along any operation sequence. -/
theorem dead_invariant (cfg : Cfg) (hcfg : 1 ≤ cfg.maxRetries) :
    (∀ ident fa ts su bo bt dt cc bcc sa sak (mr : Int) (now : Rat),
      1 ≤ mr →
      RetryInv (createMsg ident fa ts su bo bt dt cc bcc sa sak mr now)) ∧
    (∀ op m, RetryInv m → RetryInv (applyOp cfg op m)) ∧
    (∀ (ops : List Op) (m : Msg), RetryInv m →
      RetryInv (ops.foldl (fun m1 op => applyOp cfg op m1) m)) ∧
    (∀ m, RetryInv m → m.status = .dead →
      m.retriesRemaining = 0 ∧ m.lastError.isSome = true) := by
  have hstep : ∀ op m, RetryInv m → RetryInv (applyOp cfg op m) := by
    intro op m hm
    obtain ⟨hdead, hpos⟩ := hm
    cases op with
    | attempt ok err now =>
        simp only [applyOp, workerAttempt]
        by_cases helig : pendingEligible m now = true
        · rw [if_pos helig]
          have hr1 : 1 ≤ m.retriesRemaining :=
            hpos (pendingEligible_status helig)
          cases ok with
          | true => exact ⟨by simp [updateStatus], by simp [updateStatus]⟩
          | false =>
              simp only [Bool.false_eq_true, if_false]
              by_cases hgt : (0 : Int) < m.retriesRemaining - 1
              · simp only [updateStatus, if_pos hgt]
                refine ⟨by simp, ?_⟩
                intro _
                change 1 ≤ m.retriesRemaining - 1
                omega
              · simp only [updateStatus, if_neg hgt]
                refine ⟨?_, by simp⟩
                intro _
                constructor
                · change m.retriesRemaining - 1 = 0
                  omega
                · rfl
        · rw [if_neg helig]
          exact ⟨hdead, hpos⟩
    | adminRetry now =>
        simp only [applyOp, adminRetry]
        by_cases hs : m.status = .failed ∨ m.status = .dead
        · rw [if_pos hs]
          exact ⟨by simp [updateStatus], fun _ => hcfg⟩
        · rw [if_neg hs]
          exact ⟨hdead, hpos⟩
    | adminCancel now =>
        simp only [applyOp, adminCancel]
        by_cases hs : m.status = .queued
        · rw [if_pos hs]
          exact ⟨by simp [updateStatus], by simp [updateStatus]⟩
        · rw [if_neg hs]
          exact ⟨hdead, hpos⟩
  refine ⟨?_, hstep, ?_, fun m hm => hm.1⟩
  · intro ident fa ts su bo bt dt cc bcc sa sak mr now hmr
    exact ⟨by simp [createMsg], fun _ => hmr⟩
  · intro ops
    induction ops with
    | nil => intro m hm; exact hm
    | cons op rest ih =>
        intro m hm
        exact ih _ (hstep op m hm)

theorem dead_invariant_witness :
    RetryInv (createMsg 0 "a@x" ["b@y"] "" "" "plain" "email" none none
      none none 1 0) ∧
    RetryInv (applyOp ⟨1, 120, 3600⟩ (Op.attempt false "boom" 1)
      (createMsg 0 "a@x" ["b@y"] "" "" "plain" "email" none none
        none none 1 0)) :=
  ⟨(dead_invariant ⟨1, 120, 3600⟩ (by decide)).1 0 "a@x" ["b@y"] "" ""
      "plain" "email" none none none none 1 0 (by decide),
    (dead_invariant ⟨1, 120, 3600⟩ (by decide)).2.1
      (Op.attempt false "boom" 1) _
      ((dead_invariant ⟨1, 120, 3600⟩ (by decide)).1 0 "a@x" ["b@y"] "" ""
        "plain" "email" none none none none 1 0 (by decide))⟩

/-- C3 counterexample: with `max_retries = 0` the first delivery failure
dead-letters the message with `retries_remaining = -1`, so a dead row
need not have `retries_remaining = 0` for every configuration. -/
theorem dead_with_negative_retries :
    (applyOp ⟨0, 120, 3600⟩ (Op.attempt false "boom" 1)
      (createMsg 0 "a@x" ["b@y"] "" "" "plain" "email" none none
        none none 0 0)).status = .dead ∧
    (applyOp ⟨0, 120, 3600⟩ (Op.attempt false "boom" 1)
      (createMsg 0 "a@x" ["b@y"] "" "" "plain" "email" none none
        none none 0 0)).retriesRemaining = -1 := by
  constructor <;> rfl

/-! ### Backoff (C2) -/

/-- A polling schedule spaced more than `retry_max` apart, so that every
scheduled retry is due by the time of the next poll. -/
def failSched (cfg : Cfg) (i : Nat) : Rat :=
  (i : Rat) * ((cfg.retryMax : Rat) + 1)

/-- `k` consecutive delivery failures of one message, the `i`-th
happening at time `failSched cfg i`. -/
def runFails (cfg : Cfg) (err : String) (m : Msg) : Nat → Msg
  | 0 => m
  | j + 1 =>
      workerAttempt cfg false err (failSched cfg (j + 1))
        (runFails cfg err m j)

lemma failSched_succ (cfg : Cfg) (j : Nat) :
    failSched cfg (j + 1) = failSched cfg j + ((cfg.retryMax : Rat) + 1) := by
  unfold failSched
  push_cast
  ring

lemma backoffDelay_le (cfg : Cfg) (r : Int) :
    backoffDelay cfg r ≤ (cfg.retryMax : Rat) :=
  min_le_right _ _

lemma backoffDelay_natExp (cfg : Cfg) (k : Nat) :
    backoffDelay cfg (cfg.maxRetries - k)
      = min ((cfg.retryBase : Rat) * (2 : Rat) ^ k) (cfg.retryMax : Rat) := by
  unfold backoffDelay pow2
  have he : cfg.maxRetries - (cfg.maxRetries - (k : Int)) = (k : Int) := by
    ring
  rw [he, if_pos (Int.natCast_nonneg k)]
  have ht : ((k : Int)).toNat = k := Int.toNat_natCast k
  rw [ht]
  push_cast
  rfl

lemma runFails_state (cfg : Cfg) (err : String) (m0 : Msg)
    (h0 : m0.status = .queued) (hr : m0.retriesRemaining = cfg.maxRetries) :
    ∀ k : Nat, 1 ≤ k → (k : Int) < cfg.maxRetries →
      (runFails cfg err m0 k).status = .failed ∧
      (runFails cfg err m0 k).retriesRemaining = cfg.maxRetries - k ∧
      (runFails cfg err m0 k).nextRetryAt =
        some (failSched cfg k + backoffDelay cfg (cfg.maxRetries - k)) := by
  intro k
  induction k with
  | zero => intro h; exact absurd h (by decide)
  | succ j ih =>
      intro h1 hlt
      by_cases hj : j = 0
      · subst hj
        have helig : pendingEligible m0 (failSched cfg (0 + 1)) = true := by
          simp [pendingEligible, h0]
        simp only [runFails]
        unfold workerAttempt
        rw [if_pos helig]
        simp only [Bool.false_eq_true, if_false, updateStatus]
        have hgt : (0 : Int) < m0.retriesRemaining - 1 := by
          rw [hr]
          push_cast at hlt
          omega
        rw [if_pos hgt]
        refine ⟨rfl, ?_, ?_⟩
        · show m0.retriesRemaining - 1 = cfg.maxRetries - ((1 : Nat) : Int)
          rw [hr]
          push_cast
          omega
        · show some (failSched cfg 1 + backoffDelay cfg (m0.retriesRemaining - 1))
            = some (failSched cfg 1 + backoffDelay cfg (cfg.maxRetries - ((1 : Nat) : Int)))
          rw [hr]
          norm_num
      · have hj1 : 1 ≤ j := Nat.one_le_iff_ne_zero.mpr hj
        have hjlt : (j : Int) < cfg.maxRetries := by
          push_cast at hlt ⊢
          omega
        obtain ⟨hst, hrr, hnr⟩ := ih hj1 hjlt
        have hdue : failSched cfg j + backoffDelay cfg (cfg.maxRetries - j)
            ≤ failSched cfg (j + 1) := by
          rw [failSched_succ]
          have := backoffDelay_le cfg (cfg.maxRetries - j)
          linarith
        have helig : pendingEligible (runFails cfg err m0 j)
            (failSched cfg (j + 1)) = true := by
          simp [pendingEligible, hst, hnr, hdue]
        simp only [runFails]
        unfold workerAttempt
        rw [if_pos helig]
        simp only [Bool.false_eq_true, if_false, updateStatus]
        have hgt : (0 : Int) < (runFails cfg err m0 j).retriesRemaining - 1 := by
          rw [hrr]
          push_cast at hlt
          omega
        rw [if_pos hgt]
        refine ⟨rfl, ?_, ?_⟩
        · show (runFails cfg err m0 j).retriesRemaining - 1
            = cfg.maxRetries - ((j + 1 : Nat) : Int)
          rw [hrr]
          push_cast
          omega
        · show some (failSched cfg (j + 1) +
              backoffDelay cfg ((runFails cfg err m0 j).retriesRemaining - 1))
            = some (failSched cfg (j + 1) +
              backoffDelay cfg (cfg.maxRetries - ((j + 1 : Nat) : Int)))
          rw [hrr]
          have harg : cfg.maxRetries - (j : Int) - 1
              = cfg.maxRetries - ((j + 1 : Nat) : Int) := by
            push_cast
            omega
          rw [harg]

/-- C2 (amended): counting failures from creation with
`retries_remaining = max_retries`, the delay assigned on the `k`-th
SMTP failure equals `min(retry_max, retry_base × 2^k)` — the exponent is
`k`, not `k−1`; in particular the delay after the first failure is
`min(retry_max, 2 × retry_base)`. -/
theorem backoff_kth_failure_delay (cfg : Cfg) (err : String) (ident : Nat)
    (fa : String) (ts : List String) (su bo bt dt : String)
    (cc bcc : Option (List String)) (sa : Option String)
    (sak : Option Nat) (t0 : Rat) (k : Nat) (hk : 1 ≤ k)
    (hkM : (k : Int) < cfg.maxRetries) :
    (runFails cfg err (createMsg ident fa ts su bo bt dt cc bcc sa sak
        cfg.maxRetries t0) k).status = .failed ∧
    (runFails cfg err (createMsg ident fa ts su bo bt dt cc bcc sa sak
        cfg.maxRetries t0) k).retriesRemaining = cfg.maxRetries - k ∧
    (runFails cfg err (createMsg ident fa ts su bo bt dt cc bcc sa sak
        cfg.maxRetries t0) k).nextRetryAt =
      some (failSched cfg k +
        min ((cfg.retryBase : Rat) * (2 : Rat) ^ k) (cfg.retryMax : Rat)) := by
  have hbase := runFails_state cfg err
    (createMsg ident fa ts su bo bt dt cc bcc sa sak cfg.maxRetries t0)
    rfl rfl k hk hkM
  refine ⟨hbase.1, hbase.2.1, ?_⟩
  rw [hbase.2.2, backoffDelay_natExp]

theorem backoff_kth_failure_delay_witness :
    (1 ≤ 2 ∧ ((2 : Nat) : Int) < (5 : Int)) ∧
    ((runFails ⟨5, 120, 3600⟩ "boom" (createMsg 0 "a@x" ["b@y"] "" ""
        "plain" "email" none none none none 5 0) 2).status = .failed ∧
     (runFails ⟨5, 120, 3600⟩ "boom" (createMsg 0 "a@x" ["b@y"] "" ""
        "plain" "email" none none none none 5 0) 2).retriesRemaining
          = (5 : Int) - ((2 : Nat) : Int) ∧
     (runFails ⟨5, 120, 3600⟩ "boom" (createMsg 0 "a@x" ["b@y"] "" ""
        "plain" "email" none none none none 5 0) 2).nextRetryAt =
        some (failSched ⟨5, 120, 3600⟩ 2 +
          min (((120 : Int) : Rat) * (2 : Rat) ^ (2 : Nat))
            (((3600 : Int) : Rat)))) :=
  ⟨⟨by decide, by decide⟩,
    backoff_kth_failure_delay ⟨5, 120, 3600⟩ "boom" 0 "a@x" ["b@y"] "" ""
      "plain" "email" none none none none 0 2 (by decide) (by decide)⟩

/-- C2 counterexample: with `max_retries = 5`, `retry_base = 120`,
`retry_max = 3600`, the delay assigned on the first failure is 240
(`retry_base × 2^1`), not `min(retry_max, retry_base × 2^(1−1)) = 120`
as the claim states. -/
theorem backoff_first_failure_not_base :
    (runFails ⟨5, 120, 3600⟩ "boom" (createMsg 0 "a@x" ["b@y"] "" ""
        "plain" "email" none none none none 5 0) 1).nextRetryAt
      = some (failSched ⟨5, 120, 3600⟩ 1 + 240) ∧
    (runFails ⟨5, 120, 3600⟩ "boom" (createMsg 0 "a@x" ["b@y"] "" ""
        "plain" "email" none none none none 5 0) 1).nextRetryAt
      ≠ some (failSched ⟨5, 120, 3600⟩ 1 +
          min ((120 : Rat) * (2 : Rat) ^ (1 - 1 : Nat)) (3600 : Rat)) := by
  have h := runFails_state ⟨5, 120, 3600⟩ "boom"
    (createMsg 0 "a@x" ["b@y"] "" "" "plain" "email" none none none none 5 0)
    rfl rfl 1 (by decide) (by decide)
  have hb : backoffDelay ⟨5, 120, 3600⟩
      ((⟨5, 120, 3600⟩ : Cfg).maxRetries - ((1 : Nat) : Int)) = 240 := by
    show min ((120 : Rat) * pow2 ((5 : Int) - ((5 : Int) - 1))) 3600 = 240
    norm_num [pow2]
  constructor
  · rw [h.2.2, hb]
  · rw [h.2.2, hb]
    simp only [failSched]
    norm_num

/-! ### Submit / get round-trip (C5) and submission validation (C1) -/

lemma decode_store (o : Option (List String)) :
    decodeOptRecips (storeOptRecips o) = o.getD [] := by
  match o with
  | none => rfl
  | some [] => rfl
  | some (a :: l) => rfl

/-- C5 (amended): an accepted submission immediately read back through
`GET /api/v1/messages/{uuid}` projects `to`, `cc`, `bcc`, `subject`,
`body_type`, `source_app` exactly as submitted (absent `cc`/`bcc` read
back as `[]`), `status = queued`, and `from_address` equal to the
submitted `from_address` with surrounding whitespace stripped. -/
theorem submit_get_roundtrip (b64 : String → Option String)
    (h : String → String) (cfg : BlobCfg) (apiKeyId : Nat) (now : Rat)
    (st : DBState) (p : Payload) (st2 : DBState) (u : Nat) (s : Status)
    (hwf : ∀ m ∈ st.messages, m.uuid < st.nextId)
    (hsub : submit b64 h cfg apiKeyId now st p = (st2, .created u s)) :
    ∃ ts proj, p.toField = some ts ∧ getMessage st2 u = some proj ∧
      proj.toAddrs = ts ∧ proj.cc = p.cc.getD [] ∧
      proj.bcc = p.bcc.getD [] ∧
      proj.fromAddress = pyStrip p.fromAddress ∧
      proj.subject = p.subject ∧ proj.bodyType = p.bodyType ∧
      proj.sourceApp = p.sourceApp ∧ proj.status = .queued := by
  unfold submit at hsub
  dsimp only at hsub
  by_cases hfa : pyStrip p.fromAddress = ""
  · rw [if_pos hfa] at hsub
    simp at hsub
  · rw [if_neg hfa] at hsub
    cases hto : p.toField with
    | none =>
        rw [hto] at hsub
        simp at hsub
    | some ts =>
        rw [hto] at hsub
        dsimp only at hsub
        by_cases hts : ts = []
        · rw [if_pos hts] at hsub
          simp at hsub
        · rw [if_neg hts] at hsub
          by_cases hbt : p.bodyType = "plain" ∨ p.bodyType = "html" ∨
              p.bodyType = "markdown"
          · rw [if_pos hbt] at hsub
            split at hsub
            · simp at hsub
            · injection hsub with hst2 hres
              injection hres with hu hs
              subst hst2
              subst hu
              refine ⟨ts, msgToDict (createMsg st.nextId
                  (pyStrip p.fromAddress) ts p.subject p.body p.bodyType
                  p.deliveryType p.cc p.bcc p.sourceApp (some apiKeyId)
                  5 now), rfl, ?_, rfl,
                decode_store p.cc, decode_store p.bcc, rfl, rfl, rfl, rfl,
                rfl⟩
              unfold getMessage getByUuid
              show ((st.messages ++
                [createMsg st.nextId (pyStrip p.fromAddress) ts p.subject
                  p.body p.bodyType p.deliveryType p.cc p.bcc p.sourceApp
                  (some apiKeyId) 5 now]).find? _).map msgToDict = _
              rw [List.find?_append]
              have hnone : List.find?
                  (fun m => decide (m.uuid = st.nextId)) st.messages
                    = none := by
                apply List.find?_eq_none.mpr
                intro x hx
                simpa using Nat.ne_of_lt (hwf x hx)
              have huuid : (createMsg st.nextId (pyStrip p.fromAddress) ts
                  p.subject p.body p.bodyType p.deliveryType p.cc p.bcc
                  p.sourceApp (some apiKeyId) 5 now).uuid = st.nextId := rfl
              rw [huuid, hnone]
              simp [List.find?, createMsg]
          · rw [if_neg hbt] at hsub
            simp at hsub

theorem submit_get_roundtrip_witness :
    ∃ ts proj,
      (⟨"a@x", some ["b@y"], "hi", "hello", "plain", "email",
        some ["c@z"], none, some "app", []⟩ : Payload).toField = some ts ∧
      getMessage (submit (fun _ => none) id ⟨"", 10⟩ 1 0 ⟨0, [], ⟨0, [], []⟩⟩
          ⟨"a@x", some ["b@y"], "hi", "hello", "plain", "email",
            some ["c@z"], none, some "app", []⟩).1 0 = some proj ∧
      proj.toAddrs = ts ∧
      proj.cc = (some ["c@z"] : Option (List String)).getD [] ∧
      proj.bcc = (none : Option (List String)).getD [] ∧
      proj.fromAddress = pyStrip "a@x" ∧
      proj.subject = "hi" ∧ proj.bodyType = "plain" ∧
      proj.sourceApp = some "app" ∧ proj.status = .queued :=
  submit_get_roundtrip (fun _ => none) id ⟨"", 10⟩ 1 0 ⟨0, [], ⟨0, [], []⟩⟩
    ⟨"a@x", some ["b@y"], "hi", "hello", "plain", "email", some ["c@z"],
      none, some "app", []⟩ _ 0 .queued (by simp) rfl

/-- C5 counterexample: `submit_message` strips the submitted
`from_address` (`data.get("from_address", "").strip()`), so for a
payload whose `from_address` carries surrounding whitespace the
projection read back differs from the submitted field. -/
theorem submit_get_strips_from_address :
    (submit (fun _ => none) id ⟨"", 10⟩ 1 0 ⟨0, [], ⟨0, [], []⟩⟩
        ⟨" a@x ", some ["b@y"], "", "", "plain", "email", none, none,
          none, []⟩).2 = ApiResult.created 0 .queued ∧
    (getMessage (submit (fun _ => none) id ⟨"", 10⟩ 1 0
        ⟨0, [], ⟨0, [], []⟩⟩
        ⟨" a@x ", some ["b@y"], "", "", "plain", "email", none, none,
          none, []⟩).1 0).map Projection.fromAddress = some "a@x" ∧
    some ("a@x" : String) ≠ some (" a@x " : String) :=
  ⟨rfl, rfl, by decide⟩

/-- C1: for the three payload-level validations (missing
`from_address`, empty `to`, bad `body_type`) the handler indeed writes
no row; but an attachment whose `content_base64` fails to decode (or is
too large) is only detected after `Message.create` has committed, so the
request returns HTTP 400 *and* a `queued` message row remains in the
database — contradicting the claim that no row is written.  The model
decoder returns `none` on the input `"A"`, as `base64.b64decode("A")`
raises `binascii.Error` (invalid padding). -/
theorem submit_attachment_error_leaves_row :
    (submit (fun _ => none) id ⟨"", 10⟩ 1 0 ⟨0, [], ⟨0, [], []⟩⟩
        ⟨"a@x", some ["b@y"], "", "", "plain", "email", none, none, none,
          [⟨none, none, some "A"⟩]⟩).2
      = ApiResult.badRequest "Invalid base64 in attachment attachment" ∧
    (submit (fun _ => none) id ⟨"", 10⟩ 1 0 ⟨0, [], ⟨0, [], []⟩⟩
        ⟨"a@x", some ["b@y"], "", "", "plain", "email", none, none, none,
          [⟨none, none, some "A"⟩]⟩).1.messages.map Msg.status
      = [.queued] ∧
    (submit (fun _ => none) id ⟨"", 10⟩ 1 0 ⟨0, [], ⟨0, [], []⟩⟩
        ⟨"", some ["b@y"], "", "", "plain", "email", none, none, none,
          []⟩).2 = ApiResult.badRequest "from_address is required" ∧
    (submit (fun _ => none) id ⟨"", 10⟩ 1 0 ⟨0, [], ⟨0, [], []⟩⟩
        ⟨"", some ["b@y"], "", "", "plain", "email", none, none, none,
          []⟩).1.messages = [] :=
  ⟨rfl, rfl, rfl, rfl⟩

end Outbox
